import Mathlib

/-!
The `spot` polling file watcher.

A shallow embedding of `main.go` of the `spot` utility and proofs about its
snapshot store (`Store`, `Store.Check`, `NewStore`), its directory walk
(`FilePathWalkDir`) and its command dispatcher (`RunCmd`, `main`).

Modelling conventions

* A Go `string` and a Go `[]byte` are both a Lean `String`: the program only
  concatenates and prints them.
* A Go `error` is represented by its message (`Error`); a nil error is `none`.
* `time.Time` is an instant counted in nanoseconds (`Time`, an integer);
  `time.Duration` is a signed 64-bit count of nanoseconds.
* The Go map `Store` is an association list; reading, assignment and the key
  set are `Store.lookup`, `Store.set` and `Store.keys`.  The order in which
  `range` visits the keys is unspecified in Go, so `Store.Check` takes the
  order of the visit as an argument.
* The operating system is an argument as well: `FS` answers `os.Stat`, a
  `Node` answers `os.Lstat` and the directory listing during `filepath.Walk`,
  and an `Exec` answers `exec.Cmd.CombinedOutput`.
-/

namespace Spot

/-! ## Errors and time -/

/-- A Go error value, represented by its message. -/
abbrev Error := String

/-- An instant of `time.Time`, in nanoseconds. -/
abbrev Time := Int

/-- The smallest `time.Duration` (a signed 64-bit integer). -/
def minDuration : Int := -(2 ^ 63)

/-- The largest `time.Duration`. -/
def maxDuration : Int := 2 ^ 63 - 1

/-- The method `time.Time.Sub`: the duration `t - u`, replaced by the largest
(smallest) duration when the difference does not fit in a `time.Duration`. -/
def Sub (t u : Time) : Int :=
  if t - u > maxDuration then maxDuration
  else if t - u < minDuration then minDuration
  else t - u

/-! ## The filesystem as seen by `os.Stat` -/

/-- The answer of `os.Stat(path)` followed by `ModTime()`: the modification
time of the file, or the error of `os.Stat`. -/
abbrev FS := String → Except Error Time

/-- The function `GetTimeStamp(filePath)`: the modification time of the file,
or the error of `os.Stat`. -/
def GetTimeStamp (fs : FS) (filePath : String) : Except Error Time :=
  match fs filePath with
  | .error err => .error err
  | .ok modTime => .ok modTime

/-! ## The store -/

/-- The type `Store`, a Go `map[string]time.Time`, as an association list. -/
abbrev Store := List (String × Time)

/-- The map read `s[k]` with its presence flag. -/
def Store.lookup : Store → String → Option Time
  | [], _ => none
  | (k', v) :: rest, k => if k' = k then some v else Store.lookup rest k

/-- The map assignment `s[k] = v`: overwrite the entry of `k`, or add one. -/
def Store.set : Store → String → Time → Store
  | [], k, v => [(k, v)]
  | (k', v') :: rest, k, v =>
    if k' = k then (k', v) :: rest else (k', v') :: Store.set rest k v

/-- The keys of the map. -/
def Store.keys (s : Store) : List String := s.map Prod.fst

/-- One round of the `range` loop of `Store.Check`, at key `k`.  The state is
the map together with the paths sent through the channel so far.  `range`
only yields keys that are in the map, with the value `v` stored at the moment
of the visit. -/
def checkStep (fs : FS) (st : Store × List String) (k : String) :
    Store × List String :=
  match Store.lookup st.1 k with
  | none => st
  | some v =>
    match GetTimeStamp fs k with
    | .error _ => st
    | .ok currentTimeStamp =>
      if Sub currentTimeStamp v > 0 then
        (Store.set st.1 k currentTimeStamp, st.2 ++ [k])
      else st

/-- The method `Store.Check`: one pass over the map, visiting the keys in the
order `order`.  The result is the map after the pass and the sequence of paths
sent through the channel before it is closed. -/
def Store.Check (s : Store) (fs : FS) (order : List String) :
    Store × List String :=
  order.foldl (checkStep fs) (s, [])

/-- Consecutive `Store.Check` passes, each with its own filesystem state and
visiting order; the result is the map after the last pass. -/
def checkPasses (s : Store) : List (FS × List String) → Store
  | [] => s
  | (fs, order) :: rest => checkPasses (Store.Check s fs order).1 rest

/-- The path `k` is tracked, its timestamp can be re-read, and the re-read
timestamp is strictly later than the stored one. -/
def Newer (s : Store) (fs : FS) (k : String) : Prop :=
  ∃ v cur, Store.lookup s k = some v ∧ fs k = .ok cur ∧ v < cur

/-- What holds of the state `st` of a `Store.Check` pass over `s` once the
keys of `o` have been visited. -/
structure PassInv (s : Store) (fs : FS) (o : List String)
    (st : Store × List String) : Prop where
  keys_eq : Store.keys st.1 = Store.keys s
  sent_iff : ∀ k, k ∈ st.2 ↔ k ∈ o ∧ Newer s fs k
  upd : ∀ k cur, k ∈ o → Newer s fs k → fs k = .ok cur →
    Store.lookup st.1 k = some cur
  same : ∀ k, ¬ (k ∈ o ∧ Newer s fs k) → Store.lookup st.1 k = Store.lookup s k
  nodup : st.2.Nodup

/-! ## The directory walk -/

/-- What `filepath.Walk` meets at a path.

* `noent err`: `os.Lstat` of the path fails with `err`;
* `file regular`: `os.Lstat` succeeds and `IsDir()` is false; `regular` tells
  a regular file from the other kinds that are not directories (named pipe,
  socket, device, symbolic link);
* `lockedDir err`: a directory whose names cannot be read (`Readdirnames`
  fails with `err`);
* `dir entries`: a directory with the names it lists, in the order in which
  `Readdirnames` returns them, each with what is found under that name. -/
inductive Node where
  | noent (err : Error) : Node
  | file (regular : Bool) : Node
  | lockedDir (err : Error) : Node
  | dir (entries : List (String × Node)) : Node

/-- The part of `os.FileInfo` that the program and the claims look at. -/
structure FileInfo where
  IsDir : Bool
  IsRegular : Bool

/-- A Go panic: the run-time error of calling a method on a nil interface
value, or `panic(err)`. -/
inductive Panic where
  | nilDereference : Panic
  | value (err : Error) : Panic
deriving DecidableEq

/-- The function literal that `FilePathWalkDir` passes to `filepath.Walk`.
`files` is the captured slice; the result is the slice after the call and the
returned error.  `info` is `none` for a nil `os.FileInfo`, on which
`info.IsDir()` panics.  The argument `err` is not looked at. -/
def walkFn (files : List String) (path : String) (info : Option FileInfo)
    (_err : Option Error) : Except Panic (List String × Option Error) :=
  match info with
  | none => .error Panic.nilDereference
  | some i => if !i.IsDir then .ok (files ++ [path], none) else .ok (files, none)

mutual
/-- The function `filepath.Walk` with the callback `walkFn`, at `path` where
`n` is found.  As documented for `filepath.WalkFunc`: when `os.Lstat` fails
the callback is called with a nil `info` and the error; when the names of a
directory cannot be read it is called with the `info` of the directory and the
error, and the directory is not entered; otherwise the callback is called with
a nil error and, for a directory, the entries are walked in order.  A non-nil
error returned by the callback stops the walk and is returned. -/
def walk (Join : String → String → String) (path : String) :
    Node → List String → Except Panic (List String × Option Error)
  | .noent err, files => walkFn files path none (some err)
  | .file regular, files => walkFn files path (some ⟨false, regular⟩) none
  | .lockedDir err, files => walkFn files path (some ⟨true, false⟩) (some err)
  | .dir entries, files =>
    match walkFn files path (some ⟨true, false⟩) none with
    | .error p => .error p
    | .ok (files1, some err1) => .ok (files1, some err1)
    | .ok (files1, none) => walkEntries Join path entries files1
/-- The loop of `filepath.Walk` over the names of the directory `path`. -/
def walkEntries (Join : String → String → String) (path : String) :
    List (String × Node) → List String →
      Except Panic (List String × Option Error)
  | [], files => .ok (files, none)
  | (name, child) :: rest, files =>
    match walk Join (Join path name) child files with
    | .error p => .error p
    | .ok (files1, some err) => .ok (files1, some err)
    | .ok (files1, none) => walkEntries Join path rest files1
end

/-- The function `FilePathWalkDir(root)`: the collected paths and the error
returned by `filepath.Walk`, or a panic raised inside the callback.  `Join` is
`filepath.Join` and `tree` is what the walk finds at `root`. -/
def FilePathWalkDir (Join : String → String → String) (tree : Node)
    (root : String) : Except Panic (List String × Option Error) :=
  walk Join root tree []

/-- One round of the loop of `NewStore` that fills the store; the state is
the store and the text printed so far. -/
def newStoreStep (fs : FS) (st : Store × String) (dir : String) :
    Store × String :=
  match GetTimeStamp fs dir with
  | .error _ => (st.1, st.2 ++ ("Could not monitor file: " ++ dir))
  | .ok timeStamp => (Store.set st.1 dir timeStamp, st.2)

/-- The function `NewStore(path)`: the store and the text printed on standard
output, or the panic that ends the process. -/
def NewStore (Join : String → String → String) (tree : Node) (fs : FS)
    (path : String) : Except Panic (Store × String) :=
  match FilePathWalkDir Join tree path with
  | .error p => .error p
  | .ok (_, some err) => .error (Panic.value err)
  | .ok (dirs, none) => .ok (dirs.foldl (newStoreStep fs) ([], ""))

/-- The entry `m` is found at path `q` when the walk starts at path `p` where
`n` is found: `q` is `p` itself, or lies below a name listed by the directory
`p`, at any depth. -/
inductive Reach (Join : String → String → String) :
    String → Node → String → Node → Prop where
  | here (p : String) (n : Node) : Reach Join p n p n
  | under (p : String) (entries : List (String × Node)) (name : String)
      (child : Node) (q : String) (m : Node) :
      (name, child) ∈ entries → Reach Join (Join p name) child q m →
      Reach Join p (.dir entries) q m

mutual
/-- Whether `os.Lstat` fails on the starting path or on a name listed by a
directory that the walk enters. -/
def lstatFails : Node → Bool
  | .noent _ => true
  | .file _ => false
  | .lockedDir _ => false
  | .dir entries => lstatFailsIn entries
/-- Whether `lstatFails` holds of one of the listed entries. -/
def lstatFailsIn : List (String × Node) → Bool
  | [] => false
  | (_, child) :: rest => lstatFails child || lstatFailsIn rest
end

mutual
/-- The paths of the entries that are not directories, in the order of the
walk. -/
def collect (Join : String → String → String) (path : String) :
    Node → List String
  | .noent _ => []
  | .file _ => [path]
  | .lockedDir _ => []
  | .dir entries => collectIn Join path entries
/-- The paths collected below the names of the directory `path`. -/
def collectIn (Join : String → String → String) (path : String) :
    List (String × Node) → List String
  | [] => []
  | (name, child) :: rest =>
    collect Join (Join path name) child ++ collectIn Join path rest
end

/-! ## The dispatcher -/

/-- The answer of `exec.Cmd.CombinedOutput` for the command `name args`: the
captured standard output and standard error, and the error (none on success;
on a non-zero exit the captured text comes with an error; when the command
cannot be started there is only the error).  The first argument is the number
of commands run before, so that one command may answer differently each
time. -/
abbrev Exec := Nat → String → List String → String × Option Error

/-- What the process has done so far: the text written on its standard output
and the commands it has run, oldest first. -/
structure Effects where
  stdout : String
  invoked : List (String × List String)

/-- The function `RunCmd(name, args...)`: the returned pair and the effects
afterwards. -/
def RunCmd (exec : Exec) (w : Effects) (name : String) (args : List String) :
    (String × Option Error) × Effects :=
  let stdoutStderr := (exec w.invoked.length name args).1
  let w1 : Effects := ⟨w.stdout, w.invoked ++ [(name, args)]⟩
  match (exec w.invoked.length name args).2 with
  | some err => (("", some err), w1)
  | none => ((stdoutStderr, none), w1)

/-- The text that the verb `%s` of `fmt` gives for a slice of strings. -/
def fmtStrings (xs : List String) : String := "[" ++ " ".intercalate xs ++ "]"

/-- The body of the loop `for f := range c` of `main`, for the event `f`;
`name` is `os.Args[2]` and `args` is `os.Args[3:]`. -/
def dispatch (exec : Exec) (name : String) (args : List String) (w : Effects)
    (f : String) : Effects :=
  let w1 : Effects := ⟨w.stdout ++ ("File changed: " ++ f ++ "\n"), w.invoked⟩
  match RunCmd exec w1 name args with
  | ((_, some err), w2) =>
    ⟨w2.stdout ++ ("Error executing command (" ++ fmtStrings (name :: args)
      ++ "): " ++ err), w2.invoked⟩
  | ((out, none), w2) => ⟨w2.stdout ++ out, w2.invoked⟩

/-- One round of the outer loop of `main`: a `Store.Check` pass, whose events
are consumed in the order of their arrival.  `env` is the filesystem state
and the visiting order of this pass. -/
def cycle (exec : Exec) (name : String) (args : List String)
    (st : Store × Effects) (env : FS × List String) : Store × Effects :=
  ((Store.Check st.1 env.1 env.2).1,
    (Store.Check st.1 env.1 env.2).2.foldl (dispatch exec name args) st.2)

/-- The first rounds of the endless loop of `main`, one for each element of
`envs`. -/
def mainLoop (exec : Exec) (name : String) (args : List String)
    (st : Store × Effects) (envs : List (FS × List String)) : Store × Effects :=
  envs.foldl (cycle exec name args) st

/-- The program: `init` builds the store from `os.Args[1]`, then `main` loops.
The result is the state after the rounds of `envs`, or the panic of `init`. -/
def main (Join : String → String → String) (tree : Node) (fs0 : FS)
    (exec : Exec) (root name : String) (args : List String)
    (envs : List (FS × List String)) : Except Panic (Store × Effects) :=
  match NewStore Join tree fs0 root with
  | .error p => .error p
  | .ok (store, printed) =>
    .ok (mainLoop exec name args (store, ⟨printed, []⟩) envs)

/-- The text that a pass relays for a list of events when every run of the
command succeeds, `out n` being the output of run number `n`: for each event
the line naming the path, then the output of the command. -/
def relayed (out : Nat → String) : Nat → List String → String
  | _, [] => ""
  | n, f :: rest =>
    "File changed: " ++ f ++ "\n" ++ out n ++ relayed out (n + 1) rest

/-- The text that a pass writes for a list of events, whatever the outcome of
each run of the command, `n` being the number of commands run before: for each
event the line naming the path, then the output of the command when its run
succeeded, or else the message built from the command and the error. -/
def reported (exec : Exec) (name : String) (args : List String) :
    Nat → List String → String
  | _, [] => ""
  | n, f :: rest =>
    "File changed: " ++ f ++ "\n"
      ++ (match (exec n name args).2 with
          | some err =>
            "Error executing command (" ++ fmtStrings (name :: args) ++ "): "
              ++ err
          | none => (exec n name args).1)
      ++ reported exec name args (n + 1) rest

/-- The events of consecutive `Store.Check` passes, in the order in which they
are sent. -/
def allEvents (s : Store) : List (FS × List String) → List String
  | [] => []
  | (fs, order) :: rest =>
    (Store.Check s fs order).2 ++ allEvents (Store.Check s fs order).1 rest

/-- A simplified `filepath.Join`, for the worked instances. -/
def joinSlash (dir name : String) : String := dir ++ "/" ++ name

/-- A watched tree: a regular file, a subdirectory holding a named pipe and a
regular file, and a directory that cannot be listed. -/
def demoTree : Node :=
  .dir [("a.txt", .file true),
    ("locked", .lockedDir "open /tmp/watch/locked: permission denied"),
    ("sub", .dir [("broken", .file true), ("pipe", .file false)])]

/-- The answers of `os.Stat` below `/tmp/watch`: the timestamp of
`/tmp/watch/sub/broken` cannot be read. -/
def demoStat : FS := fun p =>
  if p = "/tmp/watch/a.txt" then .ok 100
  else if p = "/tmp/watch/sub/pipe" then .ok 7
  else .error "stat: permission denied"

/-- A map tracking three paths, for the worked instances below. -/
def demoStore : Store := [("/w/a", 10), ("/w/b", 20), ("/w/c", 30)]

/-- A filesystem state in which `/w/a` has been touched, `/w/b` has an older
timestamp than the stored one, and `/w/c` has been deleted. -/
def demoFS : FS := fun p =>
  if p = "/w/a" then .ok 15
  else if p = "/w/b" then .ok 7
  else .error "stat: no such file or directory"

/-! ## Facts about the store -/

theorem Sub_pos_iff (t u : Time) : Sub t u > 0 ↔ u < t := by
  unfold Sub minDuration maxDuration Time
  split_ifs <;> constructor <;> intro h0 <;> omega

theorem lookup_set_self (s : Store) (k : String) (v : Time) :
    Store.lookup (Store.set s k v) k = some v := by
  induction s with
  | nil => simp [Store.set, Store.lookup]
  | cons e rest ih =>
    obtain ⟨k', v'⟩ := e
    by_cases h : k' = k
    · simp [Store.set, Store.lookup, h]
    · simp [Store.set, Store.lookup, h, ih]

theorem lookup_set_ne (s : Store) (k k2 : String) (v : Time) (hne : k2 ≠ k) :
    Store.lookup (Store.set s k v) k2 = Store.lookup s k2 := by
  induction s with
  | nil =>
    have : ¬ k = k2 := fun h => hne h.symm
    simp [Store.set, Store.lookup, this]
  | cons e rest ih =>
    obtain ⟨k', v'⟩ := e
    by_cases h : k' = k
    · subst h
      have : ¬ k' = k2 := fun h => hne h.symm
      simp [Store.set, Store.lookup, this]
    · by_cases h2 : k' = k2
      · simp [Store.set, Store.lookup, h, h2]
        simp [Store.lookup, hne]
      · simp [Store.set, Store.lookup, h, h2, ih]

theorem keys_set_of_lookup (s : Store) (k : String) (v w : Time)
    (h : Store.lookup s k = some w) :
    Store.keys (Store.set s k v) = Store.keys s := by
  induction s with
  | nil => simp [Store.lookup] at h
  | cons e rest ih =>
    obtain ⟨k', v'⟩ := e
    by_cases hk : k' = k
    · simp [Store.set, Store.keys, hk]
    · simp only [Store.lookup, hk, if_false] at h
      have := ih h
      simp only [Store.keys] at this
      simp [Store.set, Store.keys, hk, this]

theorem lookup_isSome_iff_mem_keys (s : Store) (k : String) :
    (∃ v, Store.lookup s k = some v) ↔ k ∈ Store.keys s := by
  induction s with
  | nil => simp [Store.lookup, Store.keys]
  | cons e rest ih =>
    obtain ⟨k', v'⟩ := e
    by_cases hk : k' = k
    · simp [Store.lookup, Store.keys, hk]
    · have hk2 : ¬ k = k' := fun h => hk h.symm
      simp only [Store.keys] at ih
      simp [Store.lookup, Store.keys, hk, hk2, ih]

theorem Check_snoc (s : Store) (fs : FS) (o : List String) (k : String) :
    Store.Check s fs (o ++ [k]) = checkStep fs (Store.Check s fs o) k := by
  simp [Store.Check, List.foldl_append]

theorem passInv_nil (s : Store) (fs : FS) : PassInv s fs [] (s, []) where
  keys_eq := rfl
  sent_iff := by simp
  upd := by simp
  same := by simp
  nodup := List.nodup_nil

/-- A visit that changes nothing keeps the invariant, provided the visited
key is not a newer one seen for the first time. -/
theorem passInv_skip (s : Store) (fs : FS) (o : List String)
    (st : Store × List String) (k : String) (h : PassInv s fs o st)
    (hk : Newer s fs k → k ∈ o) : PassInv s fs (o ++ [k]) st where
  keys_eq := h.keys_eq
  sent_iff := by
    intro k2
    rw [h.sent_iff]
    constructor
    · rintro ⟨h1, h2⟩
      exact ⟨List.mem_append_left _ h1, h2⟩
    · rintro ⟨h1, h2⟩
      rcases List.mem_append.1 h1 with h1 | h1
      · exact ⟨h1, h2⟩
      · have : k2 = k := by simpa using h1
        subst this
        exact ⟨hk h2, h2⟩
  upd := by
    intro k2 cur h1 h2 h3
    rcases List.mem_append.1 h1 with h1 | h1
    · exact h.upd k2 cur h1 h2 h3
    · have : k2 = k := by simpa using h1
      subst this
      exact h.upd k2 cur (hk h2) h2 h3
  same := by
    intro k2 hn
    apply h.same
    rintro ⟨h1, h2⟩
    exact hn ⟨List.mem_append_left _ h1, h2⟩
  nodup := h.nodup

theorem passInv_step (s : Store) (fs : FS) (o : List String)
    (st : Store × List String) (k : String) (h : PassInv s fs o st) :
    PassInv s fs (o ++ [k]) (checkStep fs st k) := by
  by_cases hdone : k ∈ o ∧ Newer s fs k
  · obtain ⟨hko, v, cur, hl, hf, hlt⟩ := hdone
    have hcur := h.upd k cur hko ⟨v, cur, hl, hf, hlt⟩ hf
    have hstep : checkStep fs st k = st := by
      simp [checkStep, GetTimeStamp, hcur, hf, Sub_pos_iff]
    rw [hstep]
    exact passInv_skip s fs o st k h (fun _ => hko)
  · have hsame := h.same k hdone
    cases hl : Store.lookup s k with
    | none =>
      have hstep : checkStep fs st k = st := by
        simp [checkStep, hsame, hl]
      rw [hstep]
      refine passInv_skip s fs o st k h ?_
      rintro ⟨v, cur, hv, -, -⟩
      rw [hl] at hv
      cases hv
    | some v =>
      cases hf : fs k with
      | error e =>
        have hstep : checkStep fs st k = st := by
          simp [checkStep, GetTimeStamp, hsame, hl, hf]
        rw [hstep]
        refine passInv_skip s fs o st k h ?_
        rintro ⟨v2, cur, -, hc, -⟩
        rw [hf] at hc
        cases hc
      | ok cur =>
        by_cases hlt : v < cur
        · have hnew : Newer s fs k := ⟨v, cur, hl, hf, hlt⟩
          have hko : k ∉ o := fun hko => hdone ⟨hko, hnew⟩
          have hstep : checkStep fs st k
              = (Store.set st.1 k cur, st.2 ++ [k]) := by
            simp [checkStep, GetTimeStamp, hsame, hl, hf, Sub_pos_iff, hlt]
          rw [hstep]
          have hst : Store.lookup st.1 k = some v := by rw [hsame, hl]
          refine ⟨?_, ?_, ?_, ?_, ?_⟩
          · show Store.keys (Store.set st.1 k cur) = Store.keys s
            rw [keys_set_of_lookup st.1 k cur v hst, h.keys_eq]
          · intro k2
            show k2 ∈ st.2 ++ [k] ↔ k2 ∈ o ++ [k] ∧ Newer s fs k2
            rw [List.mem_append, List.mem_append, h.sent_iff]
            constructor
            · rintro (⟨h1, h2⟩ | h1)
              · exact ⟨Or.inl h1, h2⟩
              · have : k2 = k := by simpa using h1
                subst this
                exact ⟨Or.inr h1, hnew⟩
            · rintro ⟨h1 | h1, h2⟩
              · exact Or.inl ⟨h1, h2⟩
              · exact Or.inr h1
          · intro k2 cur2 h1 h2 h3
            show Store.lookup (Store.set st.1 k cur) k2 = some cur2
            by_cases hk2 : k2 = k
            · subst hk2
              rw [hf] at h3
              cases h3
              exact lookup_set_self st.1 k2 cur
            · rw [lookup_set_ne st.1 k k2 cur hk2]
              rcases List.mem_append.1 h1 with h1 | h1
              · exact h.upd k2 cur2 h1 h2 h3
              · exact absurd (by simpa using h1) hk2
          · intro k2 hn
            show Store.lookup (Store.set st.1 k cur) k2 = Store.lookup s k2
            have hk2 : k2 ≠ k := by
              intro hk2
              subst hk2
              exact hn ⟨by simp, hnew⟩
            rw [lookup_set_ne st.1 k k2 cur hk2]
            apply h.same
            rintro ⟨h1, h2⟩
            exact hn ⟨List.mem_append_left _ h1, h2⟩
          · show (st.2 ++ [k]).Nodup
            have hks : k ∉ st.2 := fun hks => hko ((h.sent_iff k).1 hks).1
            exact List.Nodup.append h.nodup (List.nodup_singleton k)
              (by
                intro a ha hb
                have : a = k := by simpa using hb
                subst this
                exact hks ha)
        · have hstep : checkStep fs st k = st := by
            simp [checkStep, GetTimeStamp, hsame, hl, hf, Sub_pos_iff, hlt]
          rw [hstep]
          refine passInv_skip s fs o st k h ?_
          rintro ⟨v2, cur2, hv, hc, hlt2⟩
          rw [hl] at hv
          rw [hf] at hc
          cases hv
          cases hc
          exact absurd hlt2 hlt

theorem passInv_Check (s : Store) (fs : FS) (o : List String) :
    PassInv s fs o (Store.Check s fs o) := by
  induction o using List.reverseRecOn with
  | nil => exact passInv_nil s fs
  | append_singleton l a ih =>
    rw [Check_snoc]
    exact passInv_step s fs l _ a ih

theorem Newer_mem_keys (s : Store) (fs : FS) (k : String) (h : Newer s fs k) :
    k ∈ Store.keys s := by
  obtain ⟨v, cur, hv, -, -⟩ := h
  exact (lookup_isSome_iff_mem_keys s k).1 ⟨v, hv⟩

theorem lookup_eq_none_of_not_mem (s : Store) (k : String)
    (h : k ∉ Store.keys s) : Store.lookup s k = none := by
  cases hl : Store.lookup s k with
  | none => rfl
  | some v => exact absurd ((lookup_isSome_iff_mem_keys s k).1 ⟨v, hl⟩) h

theorem checkStep_of_not_newer (fs : FS) (st : Store × List String)
    (k : String) (h : ¬ Newer st.1 fs k) : checkStep fs st k = st := by
  cases hl : Store.lookup st.1 k with
  | none => simp [checkStep, hl]
  | some v =>
    cases hf : fs k with
    | error e => simp [checkStep, GetTimeStamp, hl, hf]
    | ok cur =>
      have hlt : ¬ v < cur := fun hlt => h ⟨v, cur, hl, hf, hlt⟩
      simp [checkStep, GetTimeStamp, hl, hf, Sub_pos_iff, hlt]

theorem Check_of_not_newer (s : Store) (fs : FS) (o : List String)
    (h : ∀ k, ¬ Newer s fs k) : Store.Check s fs o = (s, []) := by
  induction o using List.reverseRecOn with
  | nil => rfl
  | append_singleton l a ih =>
    rw [Check_snoc, ih]
    exact checkStep_of_not_newer fs (s, []) a (h a)

/-- After a pass that visited every key, no tracked path is newer on the same
filesystem state. -/
theorem not_newer_after_Check (s : Store) (fs : FS) (o : List String)
    (hord : o.Perm (Store.keys s)) (k : String) :
    ¬ Newer (Store.Check s fs o).1 fs k := by
  have inv := passInv_Check s fs o
  rintro ⟨v1, cur, hv1, hf, hlt⟩
  have hmem : k ∈ Store.keys (Store.Check s fs o).1 :=
    (lookup_isSome_iff_mem_keys _ k).1 ⟨v1, hv1⟩
  rw [inv.keys_eq] at hmem
  have hko : k ∈ o := hord.mem_iff.2 hmem
  by_cases hnew : Newer s fs k
  · have := inv.upd k cur hko hnew hf
    rw [hv1] at this
    cases this
    exact lt_irrefl _ hlt
  · have := inv.same k (fun h => hnew h.2)
    rw [hv1] at this
    exact hnew ⟨v1, cur, this.symm, hf, hlt⟩

/-- Two maps with the same duplicate-free key list and the same value at every
key are the same association list. -/
theorem store_ext (s1 s2 : Store) (hk : Store.keys s1 = Store.keys s2)
    (hnd : (Store.keys s1).Nodup)
    (hl : ∀ k, Store.lookup s1 k = Store.lookup s2 k) : s1 = s2 := by
  induction s1 generalizing s2 with
  | nil =>
    cases s2 with
    | nil => rfl
    | cons e r => simp [Store.keys] at hk
  | cons e1 r1 ih =>
    cases s2 with
    | nil => simp [Store.keys] at hk
    | cons e2 r2 =>
      obtain ⟨k1, v1⟩ := e1
      obtain ⟨k2, v2⟩ := e2
      simp only [Store.keys, List.map_cons, List.cons.injEq] at hk
      obtain ⟨hk12, hkr⟩ := hk
      subst hk12
      have hv : v1 = v2 := by
        have := hl k1
        simpa [Store.lookup] using this
      subst hv
      simp only [Store.keys, List.map_cons, List.nodup_cons] at hnd
      obtain ⟨hnot, hndr⟩ := hnd
      have hrest : r1 = r2 := by
        apply ih r2 hkr hndr
        intro k
        by_cases hkk : k1 = k
        · subst hkk
          rw [lookup_eq_none_of_not_mem r1 k1 hnot,
            lookup_eq_none_of_not_mem r2 k1 (by
              have : Store.keys r2 = List.map Prod.fst r1 := hkr.symm
              rw [this]
              exact hnot)]
        · have := hl k
          simpa [Store.lookup, hkk] using this
      rw [hrest]

theorem checkPasses_keys (s : Store) (passes : List (FS × List String)) :
    Store.keys (checkPasses s passes) = Store.keys s := by
  induction passes generalizing s with
  | nil => rfl
  | cons p rest ih =>
    obtain ⟨fs, order⟩ := p
    show Store.keys (checkPasses (Store.Check s fs order).1 rest) = Store.keys s
    rw [ih, (passInv_Check s fs order).keys_eq]

/-! ## The claims about `Store.Check` -/

/-- C1: one `Store.Check` pass emits exactly the tracked paths whose timestamp
can be re-read and is strictly later than the stored one; after the pass the
stored timestamp of each emitted path is the value just read; and when exactly
one tracked path has a later timestamp, the emitted sequence is that single
path. -/
theorem Check_emits_exactly_newer (s : Store) (fs : FS) (order : List String)
    (hord : order.Perm (Store.keys s)) :
    (∀ k, k ∈ (Store.Check s fs order).2 ↔
      ∃ v cur, Store.lookup s k = some v ∧ fs k = .ok cur ∧ v < cur) ∧
    (∀ k, k ∈ (Store.Check s fs order).2 →
      ∃ cur, fs k = .ok cur ∧
        Store.lookup (Store.Check s fs order).1 k = some cur) ∧
    (∀ k0, (∀ k, (∃ v cur, Store.lookup s k = some v ∧ fs k = .ok cur ∧ v < cur)
        ↔ k = k0) → (Store.Check s fs order).2 = [k0]) := by
  have inv := passInv_Check s fs order
  have hiff : ∀ k, k ∈ (Store.Check s fs order).2 ↔ Newer s fs k := by
    intro k
    rw [inv.sent_iff]
    constructor
    · exact fun h => h.2
    · exact fun h => ⟨hord.mem_iff.2 (Newer_mem_keys s fs k h), h⟩
  refine ⟨hiff, ?_, ?_⟩
  · intro k hk
    have hnew := (hiff k).1 hk
    obtain ⟨v, cur, hv, hf, hlt⟩ := hnew
    exact ⟨cur, hf, inv.upd k cur ((inv.sent_iff k).1 hk).1 ⟨v, cur, hv, hf, hlt⟩ hf⟩
  · intro k0 honly
    have hmem : ∀ k, k ∈ (Store.Check s fs order).2 ↔ k ∈ [k0] := by
      intro k
      rw [hiff k, List.mem_singleton]
      exact honly k
    exact List.perm_singleton.1
      ((List.perm_ext_iff_of_nodup inv.nodup (List.nodup_singleton k0)).2 hmem)

/-- An instance of C1: of three tracked paths only `/w/a` was touched. -/
theorem Check_emits_exactly_newer_witness :
    List.Perm ["/w/c", "/w/a", "/w/b"] (Store.keys demoStore) ∧
    ((∀ k, k ∈ (Store.Check demoStore demoFS ["/w/c", "/w/a", "/w/b"]).2 ↔
      ∃ v cur, Store.lookup demoStore k = some v ∧ demoFS k = .ok cur ∧ v < cur) ∧
    (∀ k, k ∈ (Store.Check demoStore demoFS ["/w/c", "/w/a", "/w/b"]).2 →
      ∃ cur, demoFS k = .ok cur ∧
        Store.lookup (Store.Check demoStore demoFS ["/w/c", "/w/a", "/w/b"]).1 k
          = some cur) ∧
    (∀ k0, (∀ k, (∃ v cur, Store.lookup demoStore k = some v ∧
        demoFS k = .ok cur ∧ v < cur) ↔ k = k0) →
      (Store.Check demoStore demoFS ["/w/c", "/w/a", "/w/b"]).2 = [k0])) :=
  ⟨by decide,
    Check_emits_exactly_newer demoStore demoFS ["/w/c", "/w/a", "/w/b"] (by decide)⟩

/-- C2: a second `Store.Check` pass against the same filesystem state, right
after a pass that visited every tracked path, emits nothing and leaves the
store exactly as the first pass left it (whatever the visiting orders). -/
theorem Check_twice_silent (s : Store) (fs : FS) (o1 o2 : List String)
    (h1 : o1.Perm (Store.keys s)) :
    Store.Check (Store.Check s fs o1).1 fs o2 = ((Store.Check s fs o1).1, []) :=
  Check_of_not_newer _ fs o2 (not_newer_after_Check s fs o1 h1)

/-- An instance of C2, with two different visiting orders. -/
theorem Check_twice_silent_witness :
    List.Perm ["/w/c", "/w/a", "/w/b"] (Store.keys demoStore) ∧
    Store.Check (Store.Check demoStore demoFS ["/w/c", "/w/a", "/w/b"]).1 demoFS
        ["/w/a", "/w/b", "/w/c"]
      = ((Store.Check demoStore demoFS ["/w/c", "/w/a", "/w/b"]).1, []) :=
  ⟨by decide,
    Check_twice_silent demoStore demoFS ["/w/c", "/w/a", "/w/b"]
      ["/w/a", "/w/b", "/w/c"] (by decide)⟩

/-- C3: a tracked path whose re-read timestamp is equal to or earlier than the
stored one is not emitted by `Store.Check`, and its stored timestamp is left
as it was. -/
theorem Check_ignores_not_later (s : Store) (fs : FS) (order : List String)
    (k : String) (v cur : Time) (hk : Store.lookup s k = some v)
    (hcur : fs k = .ok cur) (hle : cur ≤ v) :
    k ∉ (Store.Check s fs order).2 ∧
    Store.lookup (Store.Check s fs order).1 k = some v := by
  have inv := passInv_Check s fs order
  have hnot : ¬ Newer s fs k := by
    rintro ⟨v2, cur2, hv, hc, hlt⟩
    rw [hk] at hv
    rw [hcur] at hc
    cases hv
    cases hc
    exact absurd hlt (not_lt.2 hle)
  refine ⟨fun hmem => hnot ((inv.sent_iff k).1 hmem).2, ?_⟩
  rw [inv.same k (fun h => hnot h.2), hk]

/-- An instance of C3: `/w/b` is stored with 20 and re-read as 7. -/
theorem Check_ignores_not_later_witness :
    (Store.lookup demoStore "/w/b" = some 20 ∧ demoFS "/w/b" = .ok 7 ∧
      (7 : Time) ≤ 20) ∧
    ("/w/b" ∉ (Store.Check demoStore demoFS ["/w/c", "/w/a", "/w/b"]).2 ∧
      Store.lookup (Store.Check demoStore demoFS ["/w/c", "/w/a", "/w/b"]).1
        "/w/b" = some 20) :=
  ⟨⟨by decide, rfl, by decide⟩,
    Check_ignores_not_later demoStore demoFS ["/w/c", "/w/a", "/w/b"] "/w/b" 20 7
      (by decide) rfl (by decide)⟩

/-- C4: when the timestamp of a tracked path cannot be re-read, `GetTimeStamp`
returns the error, and the `Store.Check` pass (a total function: it has no
failing outcome) emits no event for that path, keeps its entry with the
stored timestamp, and treats every other path as usual: it is emitted exactly
when it is tracked with a later re-read timestamp, in which case its stored
timestamp becomes the one read, and otherwise its stored timestamp stays. -/
theorem Check_skips_unreadable (s : Store) (fs : FS) (order : List String)
    (k : String) (v : Time) (err : Error)
    (hord : order.Perm (Store.keys s))
    (hk : Store.lookup s k = some v) (herr : fs k = .error err) :
    GetTimeStamp fs k = .error err ∧
    k ∉ (Store.Check s fs order).2 ∧
    k ∈ Store.keys (Store.Check s fs order).1 ∧
    Store.lookup (Store.Check s fs order).1 k = some v ∧
    (∀ k2, k2 ≠ k →
      (k2 ∈ (Store.Check s fs order).2 ↔ Newer s fs k2) ∧
      (∀ cur, Newer s fs k2 → fs k2 = .ok cur →
        Store.lookup (Store.Check s fs order).1 k2 = some cur) ∧
      (¬ Newer s fs k2 →
        Store.lookup (Store.Check s fs order).1 k2 = Store.lookup s k2)) := by
  have inv := passInv_Check s fs order
  have hnot : ¬ Newer s fs k := by
    rintro ⟨v2, cur2, -, hc, -⟩
    rw [herr] at hc
    cases hc
  have hlook : Store.lookup (Store.Check s fs order).1 k = some v := by
    rw [inv.same k (fun h => hnot h.2), hk]
  refine ⟨by simp [GetTimeStamp, herr],
    fun hmem => hnot ((inv.sent_iff k).1 hmem).2,
    (lookup_isSome_iff_mem_keys _ k).1 ⟨v, hlook⟩, hlook, ?_⟩
  intro k2 _
  refine ⟨?_, ?_, ?_⟩
  · rw [inv.sent_iff]
    exact ⟨fun h => h.2, fun h => ⟨hord.mem_iff.2 (Newer_mem_keys s fs k2 h), h⟩⟩
  · intro cur hnew hf
    exact inv.upd k2 cur (hord.mem_iff.2 (Newer_mem_keys s fs k2 hnew)) hnew hf
  · intro hn
    exact inv.same k2 (fun h => hn h.2)

/-- An instance of C4: `/w/c` has been deleted, `/w/a` is still reported. -/
theorem Check_skips_unreadable_witness :
    (List.Perm ["/w/c", "/w/a", "/w/b"] (Store.keys demoStore) ∧
      Store.lookup demoStore "/w/c" = some 30 ∧
      demoFS "/w/c" = .error "stat: no such file or directory") ∧
    "/w/c" ∉ (Store.Check demoStore demoFS ["/w/c", "/w/a", "/w/b"]).2 ∧
    Store.lookup (Store.Check demoStore demoFS ["/w/c", "/w/a", "/w/b"]).1 "/w/c"
      = some 30 ∧
    (Store.Check demoStore demoFS ["/w/c", "/w/a", "/w/b"]).2 = ["/w/a"] :=
  have h := Check_skips_unreadable demoStore demoFS ["/w/c", "/w/a", "/w/b"]
    "/w/c" 30 "stat: no such file or directory" (by decide) (by decide) rfl
  ⟨⟨by decide, by decide, rfl⟩, h.2.1, h.2.2.2.1, by decide⟩

theorem Check_sent_length_le (s : Store) (fs : FS) (o : List String) :
    (Store.Check s fs o).2.length ≤ s.length := by
  have inv := passInv_Check s fs o
  have hsub : (Store.Check s fs o).2 ⊆ Store.keys s := by
    intro k hk
    exact Newer_mem_keys s fs k ((inv.sent_iff k).1 hk).2
  have := (List.subperm_of_subset inv.nodup hsub).length_le
  simpa [Store.keys] using this

theorem Check_lookup_order_irrelevant (s : Store) (fs : FS)
    (o1 o2 : List String) (h1 : o1.Perm (Store.keys s))
    (h2 : o2.Perm (Store.keys s)) (k : String) :
    Store.lookup (Store.Check s fs o1).1 k
      = Store.lookup (Store.Check s fs o2).1 k := by
  have inv1 := passInv_Check s fs o1
  have inv2 := passInv_Check s fs o2
  by_cases hnew : Newer s fs k
  · have hmem := Newer_mem_keys s fs k hnew
    obtain ⟨v, cur, hv, hf, hlt⟩ := hnew
    rw [inv1.upd k cur (h1.mem_iff.2 hmem) ⟨v, cur, hv, hf, hlt⟩ hf,
      inv2.upd k cur (h2.mem_iff.2 hmem) ⟨v, cur, hv, hf, hlt⟩ hf]
  · rw [inv1.same k (fun h => hnew h.2), inv2.same k (fun h => hnew h.2)]

/-- C10: the outcome of a `Store.Check` pass does not depend on the order in
which `range` visits the keys: for any two orders of the tracked paths the
final stores are equal, the same paths are emitted, each path at most once,
and the number of events is at most the number of tracked entries. -/
theorem Check_order_independent (s : Store) (fs : FS) (o1 o2 : List String)
    (hs : (Store.keys s).Nodup) (h1 : o1.Perm (Store.keys s))
    (h2 : o2.Perm (Store.keys s)) :
    (Store.Check s fs o1).1 = (Store.Check s fs o2).1 ∧
    (∀ k, k ∈ (Store.Check s fs o1).2 ↔ k ∈ (Store.Check s fs o2).2) ∧
    (Store.Check s fs o1).2.Nodup ∧ (Store.Check s fs o2).2.Nodup ∧
    (Store.Check s fs o1).2.length ≤ s.length ∧
    (Store.Check s fs o2).2.length ≤ s.length := by
  have inv1 := passInv_Check s fs o1
  have inv2 := passInv_Check s fs o2
  refine ⟨?_, ?_, inv1.nodup, inv2.nodup, Check_sent_length_le s fs o1,
    Check_sent_length_le s fs o2⟩
  · apply store_ext
    · rw [inv1.keys_eq, inv2.keys_eq]
    · rw [inv1.keys_eq]
      exact hs
    · exact Check_lookup_order_irrelevant s fs o1 o2 h1 h2
  · intro k
    rw [inv1.sent_iff, inv2.sent_iff]
    constructor
    · exact fun h => ⟨h2.mem_iff.2 (Newer_mem_keys s fs k h.2), h.2⟩
    · exact fun h => ⟨h1.mem_iff.2 (Newer_mem_keys s fs k h.2), h.2⟩

/-- An instance of C10: two visiting orders of the same three-entry store. -/
theorem Check_order_independent_witness :
    ((Store.keys demoStore).Nodup ∧
      List.Perm ["/w/c", "/w/a", "/w/b"] (Store.keys demoStore) ∧
      List.Perm ["/w/b", "/w/c", "/w/a"] (Store.keys demoStore)) ∧
    ((Store.Check demoStore demoFS ["/w/c", "/w/a", "/w/b"]).1
        = (Store.Check demoStore demoFS ["/w/b", "/w/c", "/w/a"]).1 ∧
      (∀ k, k ∈ (Store.Check demoStore demoFS ["/w/c", "/w/a", "/w/b"]).2 ↔
        k ∈ (Store.Check demoStore demoFS ["/w/b", "/w/c", "/w/a"]).2) ∧
      (Store.Check demoStore demoFS ["/w/c", "/w/a", "/w/b"]).2.Nodup ∧
      (Store.Check demoStore demoFS ["/w/b", "/w/c", "/w/a"]).2.Nodup ∧
      (Store.Check demoStore demoFS ["/w/c", "/w/a", "/w/b"]).2.length
        ≤ demoStore.length ∧
      (Store.Check demoStore demoFS ["/w/b", "/w/c", "/w/a"]).2.length
        ≤ demoStore.length) :=
  ⟨⟨by decide, by decide, by decide⟩,
    Check_order_independent demoStore demoFS ["/w/c", "/w/a", "/w/b"]
      ["/w/b", "/w/c", "/w/a"] (by decide) (by decide) (by decide)⟩

/-! ## Facts about the walk and `NewStore` -/

mutual
theorem walk_eq (Join : String → String → String) :
    ∀ (n : Node) (path : String) (files : List String),
      walk Join path n files =
        if lstatFails n then .error Panic.nilDereference
        else .ok (files ++ collect Join path n, none)
  | .noent _, path, files => by simp [walk, walkFn, lstatFails]
  | .file _, path, files => by simp [walk, walkFn, lstatFails, collect]
  | .lockedDir _, path, files => by simp [walk, walkFn, lstatFails, collect]
  | .dir entries, path, files => by
    simp only [walk, walkFn, lstatFails, collect]
    exact walkEntries_eq Join entries path files
theorem walkEntries_eq (Join : String → String → String) :
    ∀ (entries : List (String × Node)) (path : String) (files : List String),
      walkEntries Join path entries files =
        if lstatFailsIn entries then .error Panic.nilDereference
        else .ok (files ++ collectIn Join path entries, none)
  | [], path, files => by simp [walkEntries, lstatFailsIn, collectIn]
  | (name, child) :: rest, path, files => by
    rw [walkEntries, walk_eq Join child (Join path name) files]
    cases h : lstatFails child with
    | true => simp [lstatFailsIn, h]
    | false =>
      simp only [lstatFailsIn, h, Bool.false_or, collectIn, Bool.false_eq_true,
        if_false]
      rw [walkEntries_eq Join rest path (files ++ collect Join (Join path name) child)]
      simp [List.append_assoc]
end

theorem mem_collectIn (Join : String → String → String) (path q : String)
    (entries : List (String × Node)) :
    q ∈ collectIn Join path entries ↔
      ∃ name child, (name, child) ∈ entries ∧
        q ∈ collect Join (Join path name) child := by
  induction entries with
  | nil => simp [collectIn]
  | cons e rest ih =>
    obtain ⟨name, child⟩ := e
    simp only [collectIn, List.mem_append, ih, List.mem_cons]
    constructor
    · rintro (h | ⟨n2, c2, hm, hq⟩)
      · exact ⟨name, child, Or.inl rfl, h⟩
      · exact ⟨n2, c2, Or.inr hm, hq⟩
    · rintro ⟨n2, c2, hm | hm, hq⟩
      · cases hm
        exact Or.inl hq
      · exact Or.inr ⟨n2, c2, hm, hq⟩

mutual
theorem reach_of_mem_collect (Join : String → String → String) :
    ∀ (n : Node) (path q : String), q ∈ collect Join path n →
      ∃ regular, Reach Join path n q (.file regular)
  | .noent _, path, q, h => by simp [collect] at h
  | .file regular, path, q, h => by
    have hq : q = path := by simpa [collect] using h
    subst hq
    exact ⟨regular, Reach.here q (.file regular)⟩
  | .lockedDir _, path, q, h => by simp [collect] at h
  | .dir entries, path, q, h => by
    rw [collect] at h
    obtain ⟨name, child, regular, hm, hr⟩ :=
      reach_of_mem_collectIn Join entries path q h
    exact ⟨regular, Reach.under path entries name child q _ hm hr⟩
theorem reach_of_mem_collectIn (Join : String → String → String) :
    ∀ (entries : List (String × Node)) (path q : String),
      q ∈ collectIn Join path entries →
      ∃ name child regular, (name, child) ∈ entries ∧
        Reach Join (Join path name) child q (.file regular)
  | [], path, q, h => by simp [collectIn] at h
  | (name, child) :: rest, path, q, h => by
    rw [collectIn, List.mem_append] at h
    rcases h with h | h
    · obtain ⟨regular, hr⟩ := reach_of_mem_collect Join child (Join path name) q h
      exact ⟨name, child, regular, List.mem_cons_self _ _, hr⟩
    · obtain ⟨n2, c2, regular, hm, hr⟩ := reach_of_mem_collectIn Join rest path q h
      exact ⟨n2, c2, regular, List.mem_cons_of_mem _ hm, hr⟩
end

theorem mem_collect_of_reach (Join : String → String → String)
    (path q : String) (n m : Node) (h : Reach Join path n q m) :
    ∀ regular, m = .file regular → q ∈ collect Join path n := by
  induction h with
  | here p n =>
    intro regular hm
    subst hm
    simp [collect]
  | under p entries name child q m hmem _ ih =>
    intro regular hm
    rw [collect, mem_collectIn]
    exact ⟨name, child, hmem, ih regular hm⟩

mutual
theorem reach_noent_of_lstatFails (Join : String → String → String) :
    ∀ (n : Node) (path : String), lstatFails n = true →
      ∃ q err, Reach Join path n q (.noent err)
  | .noent err, path, _ => ⟨path, err, Reach.here path (.noent err)⟩
  | .file _, _, h => by simp [lstatFails] at h
  | .lockedDir _, _, h => by simp [lstatFails] at h
  | .dir entries, path, h => by
    rw [lstatFails] at h
    obtain ⟨name, child, q, err, hm, hr⟩ :=
      reach_noent_of_lstatFailsIn Join entries path h
    exact ⟨q, err, Reach.under path entries name child q _ hm hr⟩
theorem reach_noent_of_lstatFailsIn (Join : String → String → String) :
    ∀ (entries : List (String × Node)) (path : String),
      lstatFailsIn entries = true →
      ∃ name child q err, (name, child) ∈ entries ∧
        Reach Join (Join path name) child q (.noent err)
  | [], _, h => by simp [lstatFailsIn] at h
  | (name, child) :: rest, path, h => by
    rw [lstatFailsIn, Bool.or_eq_true] at h
    rcases h with h | h
    · obtain ⟨q, err, hr⟩ := reach_noent_of_lstatFails Join child (Join path name) h
      exact ⟨name, child, q, err, List.mem_cons_self _ _, hr⟩
    · obtain ⟨n2, c2, q, err, hm, hr⟩ := reach_noent_of_lstatFailsIn Join rest path h
      exact ⟨n2, c2, q, err, List.mem_cons_of_mem _ hm, hr⟩
end

theorem lstatFailsIn_of_mem (entries : List (String × Node)) (name : String)
    (child : Node) (hm : (name, child) ∈ entries)
    (h : lstatFails child = true) : lstatFailsIn entries = true := by
  induction entries with
  | nil => simp at hm
  | cons e rest ih =>
    obtain ⟨n2, c2⟩ := e
    rw [lstatFailsIn, Bool.or_eq_true]
    rcases List.mem_cons.1 hm with hm | hm
    · cases hm
      exact Or.inl h
    · exact Or.inr (ih hm)

theorem lstatFails_of_reach (Join : String → String → String)
    (path q : String) (n m : Node) (h : Reach Join path n q m) :
    ∀ err, m = .noent err → lstatFails n = true := by
  induction h with
  | here p n =>
    intro err hm
    subst hm
    rfl
  | under p entries name child q m hmem _ ih =>
    intro err hm
    rw [lstatFails]
    exact lstatFailsIn_of_mem entries name child hmem (ih err hm)

/-- The function `lstatFails` holds exactly when the walk meets an entry on
which `os.Lstat` fails. -/
theorem lstatFails_iff_reach (Join : String → String → String) (path : String)
    (n : Node) :
    lstatFails n = true ↔ ∃ q err, Reach Join path n q (.noent err) :=
  ⟨reach_noent_of_lstatFails Join n path,
    fun ⟨_, err, h⟩ => lstatFails_of_reach Join path _ n _ h err rfl⟩

/-- The collected paths are the entries that are not directories and are found
from the starting path. -/
theorem mem_collect_iff (Join : String → String → String) (path q : String)
    (n : Node) :
    q ∈ collect Join path n ↔ ∃ regular, Reach Join path n q (.file regular) :=
  ⟨reach_of_mem_collect Join n path q,
    fun ⟨regular, h⟩ => mem_collect_of_reach Join path q n _ h regular rfl⟩

/-- The walk never returns an error, so `FilePathWalkDir` either panics on a
nil `info` or returns the collected paths with a nil error. -/
theorem FilePathWalkDir_eq (Join : String → String → String) (tree : Node)
    (root : String) :
    FilePathWalkDir Join tree root =
      if lstatFails tree then .error Panic.nilDereference
      else .ok (collect Join root tree, none) := by
  simp [FilePathWalkDir, walk_eq]

theorem NewStore_eq (Join : String → String → String) (tree : Node) (fs : FS)
    (root : String) :
    NewStore Join tree fs root =
      if lstatFails tree then .error Panic.nilDereference
      else .ok ((collect Join root tree).foldl (newStoreStep fs) ([], "")) := by
  rw [NewStore, FilePathWalkDir_eq]
  cases lstatFails tree <;> simp

theorem newStore_fill_lookup (fs : FS) (dirs : List String) (k : String)
    (t : Time) :
    Store.lookup (dirs.foldl (newStoreStep fs) ([], "")).1 k = some t ↔
      k ∈ dirs ∧ fs k = .ok t := by
  induction dirs using List.reverseRecOn with
  | nil => simp [Store.lookup]
  | append_singleton l d ih =>
    rw [List.foldl_append]
    simp only [List.foldl_cons, List.foldl_nil, List.mem_append,
      List.mem_singleton]
    cases hf : fs d with
    | error e =>
      have hstep : newStoreStep fs (l.foldl (newStoreStep fs) ([], "")) d
          = ((l.foldl (newStoreStep fs) ([], "")).1,
              (l.foldl (newStoreStep fs) ([], "")).2
                ++ ("Could not monitor file: " ++ d)) := by
        simp [newStoreStep, GetTimeStamp, hf]
      rw [hstep, ih]
      constructor
      · rintro ⟨h1, h2⟩
        exact ⟨Or.inl h1, h2⟩
      · rintro ⟨h1 | h1, h2⟩
        · exact ⟨h1, h2⟩
        · subst h1
          rw [hf] at h2
          cases h2
    | ok ts =>
      have hstep : newStoreStep fs (l.foldl (newStoreStep fs) ([], "")) d
          = (Store.set (l.foldl (newStoreStep fs) ([], "")).1 d ts,
              (l.foldl (newStoreStep fs) ([], "")).2) := by
        simp [newStoreStep, GetTimeStamp, hf]
      rw [hstep]
      by_cases hk : k = d
      · subst hk
        rw [lookup_set_self, hf]
        constructor
        · intro h
          cases h
          exact ⟨Or.inr rfl, rfl⟩
        · rintro ⟨-, h⟩
          cases h
          rfl
      · rw [lookup_set_ne _ d k ts hk, ih]
        constructor
        · rintro ⟨h1, h2⟩
          exact ⟨Or.inl h1, h2⟩
        · rintro ⟨h1 | h1, h2⟩
          · exact ⟨h1, h2⟩
          · exact absurd h1 hk

theorem keys_set (s : Store) (k : String) (v : Time) :
    Store.keys (Store.set s k v)
      = if k ∈ Store.keys s then Store.keys s else Store.keys s ++ [k] := by
  induction s with
  | nil => simp [Store.set, Store.keys]
  | cons e rest ih =>
    obtain ⟨k', v'⟩ := e
    by_cases hk : k' = k
    · simp [Store.set, Store.keys, hk]
    · have hk2 : ¬ k = k' := fun h => hk h.symm
      simp only [Store.keys] at ih
      by_cases hmem : k ∈ List.map Prod.fst rest
      · simp [Store.set, Store.keys, hk, ih, hmem]
      · simp [Store.set, Store.keys, hk, hk2, ih, hmem]

theorem keys_set_nodup (s : Store) (k : String) (v : Time)
    (h : (Store.keys s).Nodup) : (Store.keys (Store.set s k v)).Nodup := by
  rw [keys_set]
  split_ifs with hmem
  · exact h
  · exact List.Nodup.append h (List.nodup_singleton k)
      (by
        intro a ha hb
        have : a = k := by simpa using hb
        subst this
        exact hmem ha)

/-- The store built by `NewStore` has no key twice, as a Go map requires. -/
theorem newStore_fill_nodup (fs : FS) (dirs : List String) :
    (Store.keys (dirs.foldl (newStoreStep fs) ([], "")).1).Nodup := by
  induction dirs using List.reverseRecOn with
  | nil => simp [Store.keys]
  | append_singleton l d ih =>
    rw [List.foldl_append]
    simp only [List.foldl_cons, List.foldl_nil]
    cases hf : fs d with
    | error e =>
      simpa [newStoreStep, GetTimeStamp, hf] using ih
    | ok ts =>
      simpa [newStoreStep, GetTimeStamp, hf] using keys_set_nodup _ d ts ih

theorem NewStore_keys_nodup (Join : String → String → String) (tree : Node)
    (fs : FS) (root : String) (store : Store) (out : String)
    (h : NewStore Join tree fs root = .ok (store, out)) :
    (Store.keys store).Nodup := by
  rw [NewStore_eq] at h
  cases hl : lstatFails tree with
  | true => simp [hl] at h
  | false =>
    simp only [hl, Bool.false_eq_true, if_false, Except.ok.injEq] at h
    have := newStore_fill_nodup fs (collect Join root tree)
    rw [h] at this
    exact this

/-- The panic of `NewStore` is never `panic(err)`: the callback returns nil
whatever error it is handed, so `filepath.Walk` returns nil. -/
theorem NewStore_never_panics_with_err (Join : String → String → String)
    (tree : Node) (fs : FS) (root : String) (err : Error) :
    NewStore Join tree fs root ≠ .error (Panic.value err) := by
  rw [NewStore_eq]
  cases lstatFails tree <;> simp

/-! ## The claims about `NewStore` -/

/-- C5: a `Store.Check` pass leaves the list of tracked paths as it is, so
does any number of consecutive passes, and so in particular after any number
of passes the tracked paths are those of the store built by `NewStore`. -/
theorem Check_preserves_keys :
    (∀ (s : Store) (fs : FS) (order : List String),
      Store.keys (Store.Check s fs order).1 = Store.keys s) ∧
    (∀ (s : Store) (passes : List (FS × List String)),
      Store.keys (checkPasses s passes) = Store.keys s) ∧
    (∀ (Join : String → String → String) (tree : Node) (fs : FS)
      (root : String) (store : Store) (out : String),
      NewStore Join tree fs root = .ok (store, out) →
      ∀ passes : List (FS × List String),
        Store.keys (checkPasses store passes) = Store.keys store) :=
  ⟨fun s fs order => (passInv_Check s fs order).keys_eq,
    checkPasses_keys,
    fun _ _ _ _ store _ _ passes => checkPasses_keys store passes⟩

/-- What `NewStore` does when the walk completes: if `os.Lstat` fails on no
entry met during the walk, `NewStore` returns a store whose keys are exactly
the paths of the entries that are not directories, found from the root at any
depth, whose timestamp `os.Stat` can read, each mapped to that timestamp. -/
theorem NewStore_tracks_non_directories (Join : String → String → String)
    (tree : Node) (fs : FS) (root : String) (hlstat : lstatFails tree = false) :
    ∃ store out, NewStore Join tree fs root = .ok (store, out) ∧
      (∀ k, k ∈ Store.keys store ↔
        (∃ regular, Reach Join root tree k (.file regular)) ∧
          ∃ t, fs k = .ok t) ∧
      (∀ k t, Store.lookup store k = some t ↔
        (∃ regular, Reach Join root tree k (.file regular)) ∧ fs k = .ok t) := by
  refine ⟨((collect Join root tree).foldl (newStoreStep fs) ([], "")).1,
    ((collect Join root tree).foldl (newStoreStep fs) ([], "")).2, ?_, ?_, ?_⟩
  · rw [NewStore_eq, hlstat]
    rfl
  · intro k
    rw [← lookup_isSome_iff_mem_keys]
    constructor
    · rintro ⟨t, ht⟩
      have := (newStore_fill_lookup fs _ k t).1 ht
      exact ⟨(mem_collect_iff Join root k tree).1 this.1, t, this.2⟩
    · rintro ⟨hr, t, ht⟩
      exact ⟨t, (newStore_fill_lookup fs _ k t).2
        ⟨(mem_collect_iff Join root k tree).2 hr, ht⟩⟩
  · intro k t
    rw [newStore_fill_lookup, mem_collect_iff]

/-- An instance on a tree with a subdirectory, a named pipe, a file whose
timestamp cannot be read and a directory that cannot be listed. -/
theorem NewStore_tracks_non_directories_witness :
    lstatFails demoTree = false ∧
    NewStore joinSlash demoTree demoStat "/tmp/watch"
      = .ok ([("/tmp/watch/a.txt", 100), ("/tmp/watch/sub/pipe", 7)],
          "Could not monitor file: /tmp/watch/sub/broken") ∧
    ∃ store out, NewStore joinSlash demoTree demoStat "/tmp/watch"
        = .ok (store, out) ∧
      (∀ k, k ∈ Store.keys store ↔
        (∃ regular, Reach joinSlash "/tmp/watch" demoTree k (.file regular)) ∧
          ∃ t, demoStat k = .ok t) ∧
      (∀ k t, Store.lookup store k = some t ↔
        (∃ regular, Reach joinSlash "/tmp/watch" demoTree k (.file regular)) ∧
          demoStat k = .ok t) :=
  ⟨rfl, rfl,
    NewStore_tracks_non_directories joinSlash demoTree demoStat "/tmp/watch" rfl⟩

/-- C6, the code at the failing input: the root `/tmp/watch` is accessible and
lists `a.txt` and `gone.txt`, and `os.Lstat` fails on `gone.txt` (removed
after the listing, say).  The claim asks for the store that tracks `a.txt`, a
file found from the root whose timestamp can be read, with the unreadable
entry skipped; `NewStore` returns no store, it panics inside the callback of
the walk.  Its own loop does skip the entry when the failure comes from
`os.Stat` instead. -/
theorem NewStore_panics_on_lstat_failure :
    NewStore joinSlash
        (.dir [("a.txt", .file true),
          ("gone.txt",
            .noent "lstat /tmp/watch/gone.txt: no such file or directory")])
        demoStat "/tmp/watch" = .error Panic.nilDereference ∧
    (Reach joinSlash "/tmp/watch"
        (.dir [("a.txt", .file true),
          ("gone.txt",
            .noent "lstat /tmp/watch/gone.txt: no such file or directory")])
        "/tmp/watch/a.txt" (.file true) ∧
      demoStat "/tmp/watch/a.txt" = .ok 100) ∧
    NewStore joinSlash
        (.dir [("a.txt", .file true), ("gone.txt", .file true)])
        demoStat "/tmp/watch"
      = .ok ([("/tmp/watch/a.txt", 100)],
          "Could not monitor file: /tmp/watch/gone.txt") :=
  ⟨rfl,
    ⟨Reach.under "/tmp/watch" _ "a.txt" (.file true) _ _
        (List.mem_cons_self _ _) (Reach.here _ _), rfl⟩,
    rfl⟩

/-- C9, the code at the failing inputs: for a root directory that exists but
cannot be listed `NewStore` returns an empty store instead of panicking; for a
readable root with a subdirectory holding an entry on which `os.Lstat` fails
it panics; and for a missing root the panic is the nil dereference inside the
callback. -/
theorem NewStore_unlistable_root_no_panic :
    NewStore joinSlash (.lockedDir "open /tmp/watch: permission denied")
        demoStat "/tmp/watch" = .ok ([], "") ∧
    NewStore joinSlash
        (.dir [("a.txt", .file true),
          ("sub", .dir [("x", .noent "lstat /tmp/watch/sub/x: permission denied")])])
        demoStat "/tmp/watch" = .error Panic.nilDereference ∧
    NewStore joinSlash (.noent "lstat /tmp/watch: no such file or directory")
        demoStat "/tmp/watch" = .error Panic.nilDereference :=
  ⟨rfl, rfl, rfl⟩

/-! ## Facts about the dispatcher -/

theorem dispatch_ok (exec : Exec) (name : String) (args : List String)
    (w : Effects) (f out : String)
    (h : exec w.invoked.length name args = (out, none)) :
    dispatch exec name args w f
      = ⟨w.stdout ++ ("File changed: " ++ f ++ "\n") ++ out,
          w.invoked ++ [(name, args)]⟩ := by
  simp [dispatch, RunCmd, h]

theorem dispatch_err (exec : Exec) (name : String) (args : List String)
    (w : Effects) (f out : String) (err : Error)
    (h : exec w.invoked.length name args = (out, some err)) :
    dispatch exec name args w f
      = ⟨w.stdout ++ ("File changed: " ++ f ++ "\n")
            ++ ("Error executing command (" ++ fmtStrings (name :: args)
              ++ "): " ++ err),
          w.invoked ++ [(name, args)]⟩ := by
  simp [dispatch, RunCmd, h]

theorem dispatch_invoked (exec : Exec) (name : String) (args : List String)
    (w : Effects) (f : String) :
    (dispatch exec name args w f).invoked = w.invoked ++ [(name, args)] := by
  cases h : exec w.invoked.length name args with
  | mk out e =>
    cases e with
    | none => rw [dispatch_ok exec name args w f out h]
    | some err => rw [dispatch_err exec name args w f out err h]

theorem foldl_dispatch_invoked (exec : Exec) (name : String)
    (args : List String) (es : List String) (w : Effects) :
    (es.foldl (dispatch exec name args) w).invoked
      = w.invoked ++ List.replicate es.length (name, args) := by
  induction es generalizing w with
  | nil => simp
  | cons f rest ih =>
    rw [List.foldl_cons, ih, dispatch_invoked]
    simp [List.replicate_succ, List.append_assoc]

theorem foldl_dispatch_stdout (exec : Exec) (name : String)
    (args : List String) (out : Nat → String)
    (hsucc : ∀ n, exec n name args = (out n, none)) (es : List String)
    (w : Effects) :
    (es.foldl (dispatch exec name args) w).stdout
      = w.stdout ++ relayed out w.invoked.length es := by
  induction es generalizing w with
  | nil => simp [relayed]
  | cons f rest ih =>
    rw [List.foldl_cons, ih,
      dispatch_ok exec name args w f (out w.invoked.length) (hsucc _)]
    simp [relayed, String.append_assoc]

theorem reported_append (exec : Exec) (name : String) (args : List String)
    (es1 es2 : List String) (n : Nat) :
    reported exec name args n (es1 ++ es2)
      = reported exec name args n es1
          ++ reported exec name args (n + es1.length) es2 := by
  induction es1 generalizing n with
  | nil => simp [reported]
  | cons f rest ih =>
    show reported exec name args n (f :: (rest ++ es2)) = _
    have hlen : n + (f :: rest).length = n + 1 + rest.length := by
      rw [List.length_cons]
      omega
    rw [reported, reported, ih (n + 1), hlen]
    simp only [String.append_assoc]

theorem dispatch_reported (exec : Exec) (name : String) (args : List String)
    (w : Effects) (f : String) :
    (dispatch exec name args w f).stdout
      = w.stdout ++ reported exec name args w.invoked.length [f] := by
  cases h : exec w.invoked.length name args with
  | mk out e =>
    cases e with
    | none =>
      rw [dispatch_ok exec name args w f out h]
      simp [reported, h, String.append_assoc]
    | some err =>
      rw [dispatch_err exec name args w f out err h]
      simp [reported, h, String.append_assoc]

theorem foldl_dispatch_reported (exec : Exec) (name : String)
    (args : List String) (es : List String) (w : Effects) :
    (es.foldl (dispatch exec name args) w).stdout
      = w.stdout ++ reported exec name args w.invoked.length es := by
  induction es generalizing w with
  | nil => simp [reported]
  | cons f rest ih =>
    rw [List.foldl_cons, ih, dispatch_reported, dispatch_invoked]
    have := reported_append exec name args [f] rest w.invoked.length
    simp only [List.singleton_append, List.length_singleton] at this
    rw [this, String.append_assoc]
    simp

theorem mainLoop_cons (exec : Exec) (name : String) (args : List String)
    (st : Store × Effects) (env : FS × List String)
    (envs : List (FS × List String)) :
    mainLoop exec name args st (env :: envs)
      = mainLoop exec name args (cycle exec name args st env) envs := rfl

theorem mainLoop_store (exec : Exec) (name : String) (args : List String)
    (envs : List (FS × List String)) (s : Store) (w : Effects) :
    (mainLoop exec name args (s, w) envs).1 = checkPasses s envs := by
  induction envs generalizing s w with
  | nil => rfl
  | cons env rest ih =>
    obtain ⟨fs, order⟩ := env
    rw [mainLoop_cons]
    exact ih _ _

theorem mainLoop_invoked (exec : Exec) (name : String) (args : List String)
    (envs : List (FS × List String)) (s : Store) (w : Effects) :
    (mainLoop exec name args (s, w) envs).2.invoked
      = w.invoked ++ List.replicate (allEvents s envs).length (name, args) := by
  induction envs generalizing s w with
  | nil => simp [mainLoop, allEvents]
  | cons env rest ih =>
    obtain ⟨fs, order⟩ := env
    rw [mainLoop_cons]
    show (mainLoop exec name args
      ((Store.Check s fs order).1,
        (Store.Check s fs order).2.foldl (dispatch exec name args) w) rest).2.invoked
      = _
    rw [ih, foldl_dispatch_invoked]
    show _ = w.invoked ++ List.replicate
      ((Store.Check s fs order).2 ++ allEvents (Store.Check s fs order).1 rest).length
      (name, args)
    rw [List.length_append, List.replicate_add, List.append_assoc]

theorem mainLoop_stdout (exec : Exec) (name : String) (args : List String)
    (envs : List (FS × List String)) (s : Store) (w : Effects) :
    (mainLoop exec name args (s, w) envs).2.stdout
      = w.stdout
          ++ reported exec name args w.invoked.length (allEvents s envs) := by
  induction envs generalizing s w with
  | nil => simp [mainLoop, allEvents, reported]
  | cons env rest ih =>
    obtain ⟨fs, order⟩ := env
    rw [mainLoop_cons]
    show (mainLoop exec name args
      ((Store.Check s fs order).1,
        (Store.Check s fs order).2.foldl (dispatch exec name args) w) rest).2.stdout
      = _
    rw [ih, foldl_dispatch_reported, foldl_dispatch_invoked]
    show _ = w.stdout ++ reported exec name args w.invoked.length
      ((Store.Check s fs order).2 ++ allEvents (Store.Check s fs order).1 rest)
    rw [reported_append, List.length_append, List.length_replicate,
      String.append_assoc]

/-! ## The claims about the dispatcher -/

/-- C7: `RunCmd` returns the combined output and no error when the command
succeeds, and the error with no output when the command fails (non-zero exit
with some captured output, or no start at all).  On a failure the dispatcher
writes, after the line naming the path, the message built from the command
name, its arguments and the error, and nothing of the captured output.  A
failure stops neither the round nor the loop: whatever the outcomes of the
runs, a round of `main` handles every event of its `Store.Check` pass in order,
one run of the command for each, and the loop does so for every event of every
following pass. -/
theorem dispatch_failure_reported (exec : Exec) (name : String)
    (args : List String) (s : Store) (w : Effects) (env : FS × List String)
    (envs : List (FS × List String)) (f : String) :
    (∀ out, exec w.invoked.length name args = (out, none) →
      (RunCmd exec w name args).1 = (out, none)) ∧
    (∀ out err, exec w.invoked.length name args = (out, some err) →
      (RunCmd exec w name args).1 = ("", some err) ∧
      (dispatch exec name args w f).stdout
        = w.stdout ++ ("File changed: " ++ f ++ "\n")
            ++ ("Error executing command (" ++ fmtStrings (name :: args)
              ++ "): " ++ err)) ∧
    (∀ n out err rest, exec n name args = (out, some err) →
      reported exec name args n (f :: rest)
        = "File changed: " ++ f ++ "\n"
            ++ ("Error executing command (" ++ fmtStrings (name :: args)
              ++ "): " ++ err)
            ++ reported exec name args (n + 1) rest) ∧
    (cycle exec name args (s, w) env).2.stdout
      = w.stdout ++ reported exec name args w.invoked.length
          (Store.Check s env.1 env.2).2 ∧
    (cycle exec name args (s, w) env).2.invoked
      = w.invoked
          ++ List.replicate (Store.Check s env.1 env.2).2.length (name, args) ∧
    (mainLoop exec name args (s, w) envs).1 = checkPasses s envs ∧
    (mainLoop exec name args (s, w) envs).2.stdout
      = w.stdout ++ reported exec name args w.invoked.length (allEvents s envs) ∧
    (mainLoop exec name args (s, w) envs).2.invoked
      = w.invoked ++ List.replicate (allEvents s envs).length (name, args) := by
  refine ⟨?_, ?_, ?_, foldl_dispatch_reported exec name args _ w,
    foldl_dispatch_invoked exec name args _ w,
    mainLoop_store exec name args envs s w,
    mainLoop_stdout exec name args envs s w,
    mainLoop_invoked exec name args envs s w⟩
  · intro out h
    simp [RunCmd, h]
  · intro out err h
    refine ⟨by simp [RunCmd, h], ?_⟩
    rw [dispatch_err exec name args w f out err h]
  · intro n out err rest h
    simp [reported, h]

/-- An instance of C7: three tracked paths are touched; the first run of
`make -j 4` prints something and exits with status 1, the later runs succeed.
The failure is reported without the captured text and the two other events of
the round are handled; the same holds through `mainLoop`, whose second round
finds nothing new. -/
theorem dispatch_failure_reported_witness :
    (cycle (fun n _ _ => if n = 0 then ("make: *** No targets.", some "exit status 1")
          else ("done\n", none)) "make" ["-j", "4"]
        (demoStore, ⟨"", []⟩)
        (fun _ => .ok 50, ["/w/b", "/w/a", "/w/c"])).2.stdout
      = "File changed: /w/b\nError executing command ([make -j 4]): exit status 1"
        ++ "File changed: /w/a\ndone\nFile changed: /w/c\ndone\n" ∧
    (cycle (fun n _ _ => if n = 0 then ("make: *** No targets.", some "exit status 1")
          else ("done\n", none)) "make" ["-j", "4"]
        (demoStore, ⟨"", []⟩)
        (fun _ => .ok 50, ["/w/b", "/w/a", "/w/c"])).2.invoked
      = [("make", ["-j", "4"]), ("make", ["-j", "4"]), ("make", ["-j", "4"])] ∧
    (mainLoop (fun n _ _ => if n = 0 then ("make: *** No targets.", some "exit status 1")
          else ("done\n", none)) "make" ["-j", "4"]
        (demoStore, ⟨"", []⟩)
        [(fun _ => .ok 50, ["/w/b", "/w/a", "/w/c"]),
          (fun _ => .ok 50, ["/w/a", "/w/b", "/w/c"])]).2.stdout
      = "File changed: /w/b\nError executing command ([make -j 4]): exit status 1"
        ++ "File changed: /w/a\ndone\nFile changed: /w/c\ndone\n" :=
  have h := dispatch_failure_reported
    (fun n _ _ => if n = 0 then ("make: *** No targets.", some "exit status 1")
      else ("done\n", none)) "make" ["-j", "4"] demoStore ⟨"", []⟩
    (fun _ => .ok 50, ["/w/b", "/w/a", "/w/c"])
    [(fun _ => .ok 50, ["/w/b", "/w/a", "/w/c"]),
      (fun _ => .ok 50, ["/w/a", "/w/b", "/w/c"])] "/w/b"
  ⟨h.2.2.2.1.trans rfl, h.2.2.2.2.1.trans rfl, h.2.2.2.2.2.2.1.trans rfl⟩

/-- C8: when every run of the command succeeds, a round of the loop writes,
for each path emitted by the `Store.Check` pass and in the order of arrival,
the line `File changed: <path>` followed by the output of the command as
captured; the command is run once for each event, always with the name and
the arguments given at startup, whatever the path. -/
theorem cycle_relays_output (exec : Exec) (name : String) (args : List String)
    (out : Nat → String) (s : Store) (w : Effects) (fs : FS)
    (order : List String) (hsucc : ∀ n, exec n name args = (out n, none)) :
    (cycle exec name args (s, w) (fs, order)).2.stdout
      = w.stdout ++ relayed out w.invoked.length (Store.Check s fs order).2 ∧
    (cycle exec name args (s, w) (fs, order)).2.invoked
      = w.invoked
          ++ List.replicate (Store.Check s fs order).2.length (name, args) :=
  ⟨foldl_dispatch_stdout exec name args out hsucc _ w,
    foldl_dispatch_invoked exec name args _ w⟩

/-- An instance of C8, the end-to-end example: the root `/tmp/watch` holds
`a.txt`, the command is `echo hello`, and `a.txt` is touched. -/
theorem cycle_relays_output_witness :
    (∀ n : Nat, (fun _ _ _ => ("hello\n", none) : Exec) n "echo" ["hello"]
      = ((fun _ => "hello\n") n, none)) ∧
    ((cycle (fun _ _ _ => ("hello\n", none)) "echo" ["hello"]
        ([("/tmp/watch/a.txt", 1)], ⟨"", []⟩)
        (fun _ => .ok 2, ["/tmp/watch/a.txt"])).2.stdout
      = "" ++ relayed (fun _ => "hello\n") 0
          (Store.Check [("/tmp/watch/a.txt", 1)] (fun _ => .ok 2)
            ["/tmp/watch/a.txt"]).2 ∧
    (cycle (fun _ _ _ => ("hello\n", none)) "echo" ["hello"]
        ([("/tmp/watch/a.txt", 1)], ⟨"", []⟩)
        (fun _ => .ok 2, ["/tmp/watch/a.txt"])).2.invoked
      = [] ++ List.replicate
          (Store.Check [("/tmp/watch/a.txt", 1)] (fun _ => .ok 2)
            ["/tmp/watch/a.txt"]).2.length ("echo", ["hello"])) ∧
    (main joinSlash (.dir [("a.txt", .file true)]) (fun _ => .ok 1)
        (fun _ _ _ => ("hello\n", none)) "/tmp/watch" "echo" ["hello"]
        [(fun _ => .ok 2, ["/tmp/watch/a.txt"])]).map (fun r => r.2.stdout)
      = .ok "File changed: /tmp/watch/a.txt\nhello\n" :=
  ⟨fun _ => rfl,
    cycle_relays_output (fun _ _ _ => ("hello\n", none)) "echo" ["hello"]
      (fun _ => "hello\n") [("/tmp/watch/a.txt", 1)] ⟨"", []⟩ (fun _ => .ok 2)
      ["/tmp/watch/a.txt"] (fun _ => rfl),
    rfl⟩

end Spot
